import Mathlib

set_option maxHeartbeats 1000000

/- Shallow embedding of the fasta-kmer-counter sources (src/main.rs together
   with src/async_file.rs).  Byte streams are lists of natural numbers holding
   byte values; 62 is the header-start marker, 10 is line-feed and 13 is
   carriage-return.  The external collaborators (the tokio filesystem layer and
   the tokio-tar entry framing) are modelled as explicit parameters. -/

/-- A byte is a line boundary when it equals line-feed (10) or carriage-return
(13); embeds the tests at main.rs lines 143, 151 and 175. -/
def isNewlineByte (b : Nat) : Bool := b == 10 || b == 13

/-- Embeds the header-seeking loop of count_fasta_file (main.rs lines 136-144):
read bytes until a header marker 62 immediately follows a line boundary or the
stream start; that byte is consumed and the remainder returned.  When the
stream is exhausted without a header the empty remainder is returned; the code
records no failure in that case. -/
def seekHeader : List Nat → Bool → List Nat
  | [], _ => []
  | b :: rest, lastNl =>
    if lastNl && b == 62 then rest else seekHeader rest (isNewlineByte b)

/-- Embeds the header-skipping loop of count_fasta_file (main.rs lines
149-154): read and discard bytes until a line boundary; returns the remainder
after it, or the empty list when the stream ends first. -/
def skipToNewline : List Nat → List Nat
  | [] => []
  | b :: rest => if isNewlineByte b then rest else skipToNewline rest

/-- Embeds the character-counting loop of count_fasta_file (main.rs lines
161-180): cnt is the running character_count, lastNl the last_is_newline flag.
Returns none when a header marker 62 is met while lastNl is false (lines
168-172), some (cnt, rest) when a marker is met in header position (lines
165-167, the marker byte is consumed), and some (cnt, []) at end of stream.
Every byte other than 10 and 13 increments cnt (lines 175-177). -/
def countRecord : List Nat → Nat → Bool → Option (Nat × List Nat)
  | [], cnt, _ => some (cnt, [])
  | b :: rest, cnt, lastNl =>
    if b == 62 then
      if lastNl then some (cnt, rest) else none
    else
      countRecord rest (if isNewlineByte b then cnt else cnt + 1) (isNewlineByte b)

/-- Fuel-indexed embedding of the outer record loop of count_fasta_file
(main.rs lines 146-183).  One iteration skips the current header line, counts
the record body and adds (character_count + 1).saturating_sub(k) to sum (line
182); the loop exits successfully when the stream is exhausted before the
header skip reads any byte (has_characters stays false, lines 156-158).  The
fuel argument only drives the recursion; fastaLoop below always supplies
enough fuel, so the fuel-zero branch is unreachable from it. -/
def fastaLoopF (k : Nat) : Nat → List Nat → Nat → Option Nat
  | 0, _, sum => some sum
  | fuel + 1, stream, sum =>
    if stream = [] then some sum
    else
      match countRecord (skipToNewline stream) 0 true with
      | none => none
      | some (cnt, rest) => fastaLoopF k fuel rest (sum + (cnt + 1 - k))

/-- The record loop of count_fasta_file run with sufficient fuel. -/
def fastaLoop (k : Nat) (stream : List Nat) (sum : Nat) : Option Nat :=
  fastaLoopF k (stream.length + 1) stream sum

/-- Embeds count_fasta_file (main.rs lines 127-187): seek the first header
marker, then run the record loop with an empty running sum; the result is
some sum on success and none when the stream is judged not to be the sequence
format. -/
def count_fasta_file (stream : List Nat) (k : Nat) : Option Nat :=
  fastaLoop k (seekHeader stream true) 0

/-- Number of counted characters of a record body: every byte that is not a
line boundary (main.rs lines 175-177). -/
def bodyLength (l : List Nat) : Nat := (l.filter (fun b => !isNewlineByte b)).length

/-- Embeds the per-record conversion at main.rs line 182:
(character_count + 1).saturating_sub(k), in saturating Nat arithmetic. -/
def kmerContribution (L k : Nat) : Nat := L + 1 - k

/-- Sum of the k-mer counts of a list of archive entry contents, each entry
processed by count_fasta_file with a negative verdict contributing 0 via
unwrap_or_default; embeds the entry loop of count_tar_file (main.rs lines
107-113). -/
def tarEntrySum (es : List (List Nat)) (k : Nat) : Nat :=
  (es.map (fun e => (count_fasta_file e k).getD 0)).sum

/-- Embeds count_tar_file (main.rs lines 96-125).  The external tokio-tar
crate is abstracted by tarFraming: none models Archive::entries failing
(lines 103-106), some es models the list of entry contents produced by the
while let Some(Ok(..)) loop, which already stops at the first entry error.
A zero sum over the entries is declared not-a-tar (lines 115-119). -/
def count_tar_file (tarFraming : List Nat → Option (List (List Nat)))
    (stream : List Nat) (k : Nat) : Option Nat :=
  match tarFraming stream with
  | none => none
  | some es => if tarEntrySum es k = 0 then none else some (tarEntrySum es k)

/-- Embeds count_file (main.rs lines 80-94): try the archive interpretation
first; on its negative verdict, return 0 when the seek back to offset zero
fails (lines 84-86), and otherwise run count_fasta_file on the whole stream,
turning a negative verdict into 0.  seekOk models whether the seek succeeds. -/
def count_file (tarFraming : List Nat → Option (List (List Nat)))
    (seekOk : Bool) (stream : List Nat) (k : Nat) : Nat :=
  match count_tar_file tarFraming stream k with
  | some amount => amount
  | none => if seekOk then (count_fasta_file stream k).getD 0 else 0

mutual
/-- Model of a filesystem node as classified by count_path (main.rs lines
54-65): a directory with its enumeration, a regular readable file with its
content and a flag saying whether seeking it succeeds, or a path that can be
opened neither as a directory nor as a file. -/
inductive FsNode : Type where
  | dir (entries : DirList)
  | file (seekOk : Bool) (content : List Nat)
  | unreadable

/-- Model of a directory enumeration stream as consumed by count_directory
(main.rs line 71): a clean end (next_entry returns Ok(None)), an enumeration
error (Err, carrying whatever entries would have followed), or one entry
followed by the rest of the enumeration. -/
inductive DirList : Type where
  | nil
  | err (rest : DirList)
  | cons (head : FsNode) (tail : DirList)
end

mutual
/-- Embeds count_path (main.rs lines 54-65): directories go to the walker,
readable files to the sniffer, everything else contributes zero. -/
def count_path (tarFraming : List Nat → Option (List (List Nat))) (k : Nat) :
    FsNode → Nat
  | FsNode.dir entries => count_directory tarFraming k entries
  | FsNode.file seekOk content => count_file tarFraming seekOk content k
  | FsNode.unreadable => 0

/-- Embeds count_directory (main.rs lines 68-77): the while let Ok(Some(..))
loop stops both at the clean end and at the first enumeration error, keeping
the sum accumulated so far. -/
def count_directory (tarFraming : List Nat → Option (List (List Nat))) (k : Nat) :
    DirList → Nat
  | DirList.nil => 0
  | DirList.err _ => 0
  | DirList.cons n rest => count_path tarFraming k n + count_directory tarFraming k rest
end

/-- Embeds the accumulation loop of main over the input paths (main.rs lines
46-49). -/
def grandTotal (tarFraming : List Nat → Option (List (List Nat)))
    (inputs : List FsNode) (k : Nat) : Nat :=
  inputs.foldl (fun acc input => acc + count_path tarFraming k input) 0

/-- A directory enumeration made of the given entries followed by the given
remainder. -/
def dirOfList (pre : List FsNode) (rest : DirList) : DirList :=
  pre.foldr DirList.cons rest

/-- The last_is_newline flag after reading all bytes of l starting from init,
following the updates at main.rs lines 143 and 179. -/
def lastIsNewline (init : Bool) (l : List Nat) : Bool :=
  l.foldl (fun _ b => isNewlineByte b) init

/-- Whether the stream holds a header marker in header position when reading
starts with last_is_newline = last (the condition at main.rs line 138). -/
def containsHeaderStart (last : Bool) : List Nat → Bool
  | [] => false
  | b :: rest => (last && b == 62) || containsHeaderStart (isNewlineByte b) rest

/-- A canonical record layout: header marker 62, a header line closed by a
line feed, then the record body; the tail follows the last body directly. -/
def recordsStream (recs : List (List Nat × List Nat)) (tail : List Nat) : List Nat :=
  recs.foldr (fun r acc => 62 :: (r.1 ++ 10 :: (r.2 ++ acc))) tail

/-- The stream as the record loop sees it right after the leading header
marker has been consumed. -/
def afterHeader : List (List Nat × List Nat) → List Nat → List Nat
  | [], tail => tail.tail
  | (h, b) :: rest, tail => h ++ 10 :: (b ++ recordsStream rest tail)

/-- Well-formed canonical records: header lines hold no line boundary, bodies
hold no header marker, and each body is empty or ends with a line boundary. -/
def wfRecs (recs : List (List Nat × List Nat)) : Prop :=
  ∀ r ∈ recs, (∀ x ∈ r.1, isNewlineByte x = false) ∧ (∀ x ∈ r.2, x ≠ 62) ∧
    lastIsNewline true r.2 = true

instance (recs : List (List Nat × List Nat)) : Decidable (wfRecs recs) := by
  unfold wfRecs; exact inferInstance

/-- Total k-mer contribution of a list of canonical records. -/
def contribSum (recs : List (List Nat × List Nat)) (k : Nat) : Nat :=
  (recs.map (fun r => kmerContribution (bodyLength r.2) k)).sum

/-- Length of the stream left after one run of the counting loop; 0 when the
loop rejects the stream. -/
def recordRestLength (l : List Nat) (cnt : Nat) (last : Bool) : Nat :=
  match countRecord l cnt last with
  | none => 0
  | some (_, rest) => rest.length

/-- Bytes of a small sequence file: marker, header x, line feed, A C G T,
line feed. -/
def innerFasta : List Nat := [62, 120, 10, 65, 67, 71, 84, 10]

/-- Bytes standing for an inner archive; they carry no header marker. -/
def innerTar : List Nat := [84, 65, 82, 33]

/-- Bytes standing for an outer archive. -/
def outerTar : List Nat := [79, 85, 84, 33]

/-- A framing function under which outerTar is an archive holding innerTar as
its single entry, and innerTar is itself an archive holding innerFasta. -/
def nestedFraming : List Nat → Option (List (List Nat)) :=
  fun s => if s = outerTar then some [innerTar]
    else if s = innerTar then some [innerFasta] else none

/-- A framing function that never frames anything as an archive. -/
def noFraming : List Nat → Option (List (List Nat)) := fun _ => none

/-- A framing function with a single archive, outerTar, holding innerFasta. -/
def oneEntryFraming : List Nat → Option (List (List Nat)) :=
  fun s => if s = outerTar then some [innerFasta] else none

/-- Bytes of a small sequence file: marker, header a, line feed, A C G T,
line feed. -/
def plainFasta : List Nat := [62, 97, 10, 65, 67, 71, 84, 10]

/-- Bytes of the file from the concrete scenario of the spec: records seqA
with body ACGTACGT and seqB with body AC. -/
def scenarioFile : List Nat :=
  [62, 115, 101, 113, 65, 10, 65, 67, 71, 84, 65, 67, 71, 84, 10,
   62, 115, 101, 113, 66, 10, 65, 67, 10]

/- Helper lemmas about the loop embeddings. -/

theorem skipToNewline_length_le (l : List Nat) : (skipToNewline l).length ≤ l.length := by
  induction l with
  | nil => simp [skipToNewline]
  | cons b rest ih =>
    by_cases hb : isNewlineByte b
    · simp [skipToNewline, hb]
    · simp only [skipToNewline, hb, if_false, Bool.false_eq_true, List.length_cons]
      omega

theorem skipToNewline_length_lt (l : List Nat) (hl : l ≠ []) :
    (skipToNewline l).length < l.length := by
  cases l with
  | nil => simp at hl
  | cons b rest =>
    have h := skipToNewline_length_le rest
    by_cases hb : isNewlineByte b <;>
      simp only [skipToNewline, hb, if_true, if_false, Bool.false_eq_true, List.length_cons] <;>
      omega

theorem countRecord_rest_length_le (l : List Nat) :
    ∀ (cnt : Nat) (last : Bool) (c : Nat) (rest : List Nat),
      countRecord l cnt last = some (c, rest) → rest.length ≤ l.length := by
  induction l with
  | nil =>
    intro cnt last c rest h
    simp [countRecord] at h
    simp [h.2.symm]
  | cons b r ih =>
    intro cnt last c rest h
    by_cases h62 : b = 62
    · subst h62
      simp only [countRecord, beq_self_eq_true, if_true] at h
      cases last with
      | false => simp at h
      | true =>
        simp at h
        simp [h.2.symm, List.length_cons]
    · have h62b : (b == 62) = false := by simp [h62]
      simp only [countRecord, h62b, Bool.false_eq_true, if_false] at h
      have := ih _ _ _ _ h
      simp [List.length_cons]
      omega

theorem countRecord_rest_length_lt (l : List Nat) (hl : l ≠ [])
    (cnt : Nat) (last : Bool) (c : Nat) (rest : List Nat)
    (h : countRecord l cnt last = some (c, rest)) : rest.length < l.length := by
  cases l with
  | nil => simp at hl
  | cons b r =>
    by_cases h62 : b = 62
    · subst h62
      simp only [countRecord, beq_self_eq_true, if_true] at h
      cases last with
      | false => simp at h
      | true =>
        simp at h
        simp [h.2.symm]
    · have h62b : (b == 62) = false := by simp [h62]
      simp only [countRecord, h62b, Bool.false_eq_true, if_false] at h
      have := countRecord_rest_length_le r _ _ _ _ h
      simp
      omega

theorem seekHeader_length_le (l : List Nat) : ∀ (last : Bool),
    (seekHeader l last).length ≤ l.length := by
  induction l with
  | nil => intro last; simp [seekHeader]
  | cons b r ih =>
    intro last
    by_cases hc : (last && b == 62) = true
    · simp [seekHeader, hc]
    · simp only [seekHeader, hc, if_false, Bool.false_eq_true, List.length_cons]
      have := ih (isNewlineByte b)
      omega

theorem seekHeader_length_lt (l : List Nat) (last : Bool) (hl : l ≠ []) :
    (seekHeader l last).length < l.length := by
  cases l with
  | nil => simp at hl
  | cons b r =>
    by_cases hc : (last && b == 62) = true
    · simp [seekHeader, hc]
    · simp only [seekHeader, hc, if_false, Bool.false_eq_true, List.length_cons]
      have := seekHeader_length_le r (isNewlineByte b)
      omega

theorem fastaLoopF_congr (k : Nat) (f1 : Nat) :
    ∀ (f2 : Nat) (s : List Nat) (sum : Nat), s.length < f1 → s.length < f2 →
      fastaLoopF k f1 s sum = fastaLoopF k f2 s sum := by
  induction f1 with
  | zero => intro f2 s sum h1 _; omega
  | succ f1 ih =>
    intro f2 s sum h1 h2
    cases f2 with
    | zero => omega
    | succ f2 =>
      simp only [fastaLoopF]
      by_cases hs : s = []
      · simp [hs]
      · simp only [hs, if_false]
        cases hcr : countRecord (skipToNewline s) 0 true with
        | none => simp
        | some p =>
          obtain ⟨c, rest⟩ := p
          simp only []
          have hle := countRecord_rest_length_le _ _ _ _ _ hcr
          have hlt := skipToNewline_length_lt s hs
          exact ih f2 rest _ (by omega) (by omega)

theorem fastaLoop_nil (k sum : Nat) : fastaLoop k [] sum = some sum := rfl

theorem fastaLoop_cons (k : Nat) (s : List Nat) (sum : Nat) (hs : s ≠ [])
    (c : Nat) (rest : List Nat)
    (h : countRecord (skipToNewline s) 0 true = some (c, rest)) :
    fastaLoop k s sum = fastaLoop k rest (sum + (c + 1 - k)) := by
  unfold fastaLoop
  have hlen : s.length + 1 = s.length + 1 := rfl
  simp only [fastaLoopF, hs, if_false, h]
  have hle := countRecord_rest_length_le _ _ _ _ _ h
  have hlt := skipToNewline_length_lt s hs
  exact fastaLoopF_congr k s.length (rest.length + 1) rest _ (by omega) (by omega)

theorem fastaLoop_none (k : Nat) (s : List Nat) (sum : Nat) (hs : s ≠ [])
    (h : countRecord (skipToNewline s) 0 true = none) :
    fastaLoop k s sum = none := by
  unfold fastaLoop
  simp only [fastaLoopF, hs, if_false, h]

theorem lastIsNewline_nil (init : Bool) : lastIsNewline init [] = init := rfl

theorem lastIsNewline_cons (init : Bool) (b : Nat) (l : List Nat) :
    lastIsNewline init (b :: l) = lastIsNewline (isNewlineByte b) l := rfl

theorem skipToNewline_of_no_newline (l : List Nat)
    (h : ∀ x ∈ l, isNewlineByte x = false) : skipToNewline l = [] := by
  induction l with
  | nil => rfl
  | cons b r ih =>
    have hb : isNewlineByte b = false := h b (by simp)
    simp only [skipToNewline, hb, Bool.false_eq_true, if_false]
    exact ih (fun x hx => h x (by simp [hx]))

theorem skipToNewline_append (h : List Nat) (b : Nat) (rest : List Nat)
    (hh : ∀ x ∈ h, isNewlineByte x = false) (hb : isNewlineByte b = true) :
    skipToNewline (h ++ b :: rest) = rest := by
  induction h with
  | nil => simp [skipToNewline, hb]
  | cons x h ih =>
    have hx : isNewlineByte x = false := hh x (by simp)
    simp only [List.cons_append, skipToNewline, hx, Bool.false_eq_true, if_false]
    exact ih (fun y hy => hh y (by simp [hy]))

theorem bodyLength_nil : bodyLength [] = 0 := rfl

theorem bodyLength_cons (b : Nat) (l : List Nat) :
    bodyLength (b :: l) = (if isNewlineByte b then 0 else 1) + bodyLength l := by
  cases hnl : isNewlineByte b <;> (simp [bodyLength, List.filter_cons, hnl]; all_goals omega)

theorem countRecord_no_marker (l : List Nat) :
    ∀ (cnt : Nat) (last : Bool), (∀ x ∈ l, x ≠ 62) →
      countRecord l cnt last = some (cnt + bodyLength l, []) := by
  induction l with
  | nil => intro cnt last _; simp [countRecord, bodyLength]
  | cons b r ih =>
    intro cnt last h
    have hb : b ≠ 62 := h b (by simp)
    have hb' : (b == 62) = false := by simp [hb]
    have hr : ∀ x ∈ r, x ≠ 62 := fun x hx => h x (by simp [hx])
    simp only [countRecord, hb', Bool.false_eq_true, if_false]
    rw [ih _ _ hr, bodyLength_cons]
    cases hnl : isNewlineByte b <;> (simp [hnl]; all_goals omega)

theorem countRecord_marker_append (p : List Nat) :
    ∀ (cnt : Nat) (last : Bool) (q : List Nat), (∀ x ∈ p, x ≠ 62) →
      countRecord (p ++ 62 :: q) cnt last =
        if lastIsNewline last p then some (cnt + bodyLength p, q) else none := by
  induction p with
  | nil =>
    intro cnt last q _
    simp only [List.nil_append, countRecord, beq_self_eq_true, if_true,
      lastIsNewline_nil, bodyLength, List.filter, List.length_nil, Nat.add_zero]
  | cons b p ih =>
    intro cnt last q h
    have hb : b ≠ 62 := h b (by simp)
    have hb' : (b == 62) = false := by simp [hb]
    have hp : ∀ x ∈ p, x ≠ 62 := fun x hx => h x (by simp [hx])
    simp only [List.cons_append, countRecord, hb', Bool.false_eq_true, if_false,
      List.append_eq]
    rw [ih _ _ _ hp, lastIsNewline_cons, bodyLength_cons]
    by_cases hlast : lastIsNewline (isNewlineByte b) p = true
    · simp only [hlast, if_true]
      cases hnl : isNewlineByte b <;> (simp [hnl]; all_goals omega)
    · simp [hlast]

theorem seekHeader_of_no_header (l : List Nat) :
    ∀ (last : Bool), containsHeaderStart last l = false → seekHeader l last = [] := by
  induction l with
  | nil => intro last _; rfl
  | cons b r ih =>
    intro last h
    simp only [containsHeaderStart, Bool.or_eq_false_iff] at h
    simp only [seekHeader, h.1, Bool.false_eq_true, if_false]
    exact ih _ h.2

theorem seekHeader_append_marker (pre : List Nat) :
    ∀ (last : Bool) (X : List Nat), containsHeaderStart last pre = false →
      lastIsNewline last pre = true → seekHeader (pre ++ 62 :: X) last = X := by
  induction pre with
  | nil =>
    intro last X _ h2
    rw [lastIsNewline_nil] at h2
    simp [seekHeader, h2]
  | cons b p ih =>
    intro last X h1 h2
    simp only [containsHeaderStart, Bool.or_eq_false_iff] at h1
    simp only [List.cons_append, seekHeader, h1.1, Bool.false_eq_true, if_false]
    rw [lastIsNewline_cons] at h2
    exact ih _ _ h1.2 h2

theorem recordsStream_cons_marker (recs : List (List Nat × List Nat)) (t : List Nat) :
    recordsStream recs (62 :: t) = 62 :: afterHeader recs (62 :: t) := by
  cases recs with
  | nil => rfl
  | cons r rest => cases r; rfl

theorem contribSum_cons (r : List Nat × List Nat) (recs : List (List Nat × List Nat))
    (k : Nat) : contribSum (r :: recs) k =
      kmerContribution (bodyLength r.2) k + contribSum recs k := by
  simp [contribSum]

theorem fastaLoop_records (recs : List (List Nat × List Nat)) :
    ∀ (t : List Nat) (k sum : Nat), wfRecs recs →
      fastaLoop k (afterHeader recs (62 :: t)) sum =
        fastaLoop k t (sum + contribSum recs k) := by
  induction recs with
  | nil => intro t k sum _; simp [afterHeader, contribSum]
  | cons r rest ih =>
    intro t k sum hwf
    obtain ⟨h, b⟩ := r
    obtain ⟨hh, hb62, hbnl⟩ := hwf (h, b) (by simp)
    have hwf' : wfRecs rest := fun r hr => hwf r (by simp [hr])
    have hs : (h ++ 10 :: (b ++ recordsStream rest (62 :: t))) ≠ [] := by simp
    have hskip : skipToNewline (h ++ 10 :: (b ++ recordsStream rest (62 :: t)))
        = b ++ recordsStream rest (62 :: t) :=
      skipToNewline_append h 10 _ hh rfl
    have hcr : countRecord (b ++ 62 :: afterHeader rest (62 :: t)) 0 true
        = some (0 + bodyLength b, afterHeader rest (62 :: t)) := by
      rw [countRecord_marker_append b 0 true _ hb62, if_pos hbnl]
    have hstep : countRecord (skipToNewline
          (h ++ 10 :: (b ++ recordsStream rest (62 :: t)))) 0 true
        = some (0 + bodyLength b, afterHeader rest (62 :: t)) := by
      rw [hskip, recordsStream_cons_marker]
      exact hcr
    show fastaLoop k (h ++ 10 :: (b ++ recordsStream rest (62 :: t))) sum = _
    rw [fastaLoop_cons k _ sum hs (0 + bodyLength b) (afterHeader rest (62 :: t)) hstep]
    rw [ih t k _ hwf', contribSum_cons]
    congr 1
    simp only [kmerContribution]
    omega

theorem kmerContribution_int (L k : Nat) :
    (kmerContribution L k : Int) = max ((L : Int) - k + 1) 0 := by
  unfold kmerContribution
  omega

/-- C1: on an accepted stream made of any junk-free preamble, any list of
well-formed records and a final record of body bL, count_fasta_file succeeds
and each record of content length L contributes exactly max(L - k + 1, 0),
computed by kmerContribution (the saturating expression of main.rs line 182);
in particular for positive k a record of length k - 1 contributes 0 and a
record of length k contributes 1, and the contribution never underflows. -/
theorem count_fasta_records_contribution (k : Nat) (hk : 1 ≤ k)
    (pre : List Nat) (recs : List (List Nat × List Nat)) (hL bL : List Nat)
    (hpre : containsHeaderStart true pre = false)
    (hpreNl : lastIsNewline true pre = true)
    (hwf : wfRecs recs)
    (hhL : ∀ x ∈ hL, isNewlineByte x = false)
    (hbL : ∀ x ∈ bL, x ≠ 62) :
    count_fasta_file (pre ++ recordsStream recs (62 :: (hL ++ 10 :: bL))) k
      = some (contribSum recs k + kmerContribution (bodyLength bL) k)
    ∧ (kmerContribution (bodyLength bL) k : Int)
        = max ((bodyLength bL : Int) - k + 1) 0
    ∧ kmerContribution (k - 1) k = 0
    ∧ kmerContribution k k = 1 := by
  refine ⟨?_, kmerContribution_int (bodyLength bL) k, ?_, ?_⟩
  · unfold count_fasta_file
    rw [recordsStream_cons_marker, seekHeader_append_marker pre true _ hpre hpreNl]
    rw [fastaLoop_records recs _ k 0 hwf]
    have hs2 : (hL ++ 10 :: bL) ≠ [] := by simp
    have hstep : countRecord (skipToNewline (hL ++ 10 :: bL)) 0 true
        = some (0 + bodyLength bL, []) := by
      rw [skipToNewline_append hL 10 bL hhL rfl]
      exact countRecord_no_marker bL 0 true hbL
    rw [fastaLoop_cons k _ _ hs2 (0 + bodyLength bL) [] hstep, fastaLoop_nil]
    simp only [kmerContribution, Nat.zero_add]
  · unfold kmerContribution; omega
  · unfold kmerContribution; omega

theorem count_fasta_records_contribution_witness :
    count_fasta_file ([] ++ recordsStream [([104], [65, 65, 10])]
        (62 :: ([105] ++ 10 :: [71, 71, 71]))) 2
      = some (contribSum [([104], [65, 65, 10])] 2
          + kmerContribution (bodyLength [71, 71, 71]) 2)
    ∧ (kmerContribution (bodyLength [71, 71, 71]) 2 : Int)
        = max ((bodyLength [71, 71, 71] : Int) - 2 + 1) 0
    ∧ kmerContribution (2 - 1) 2 = 0
    ∧ kmerContribution 2 2 = 1 :=
  count_fasta_records_contribution 2 (by decide) [] [([104], [65, 65, 10])]
    [105] [71, 71, 71] (by decide) (by decide) (by decide) (by decide) (by decide)

/-- C2 counterexample: the stream built of the three bytes A B C holds no
header marker at all, yet count_fasta_file returns the successful count
some 0, not the negative verdict none claimed by the spec. -/
theorem count_fasta_no_header_cex :
    count_fasta_file [65, 66, 67] 3 = some 0
    ∧ count_fasta_file [65, 66, 67] 3 ≠ none := by
  constructor
  · decide
  · decide

/-- C2 amended: on every stream holding no header marker in header position,
count_fasta_file returns the successful count some 0 (the header-seeking loop
of main.rs lines 136-144 records no failure, and the record loop then exits
at once), not the negative verdict none. -/
theorem count_fasta_no_header_amended (s : List Nat) (k : Nat)
    (h : containsHeaderStart true s = false) : count_fasta_file s k = some 0 := by
  unfold count_fasta_file
  rw [seekHeader_of_no_header s true h]
  rfl

theorem count_fasta_no_header_amended_witness :
    count_fasta_file [65, 66, 67] 7 = some 0 :=
  count_fasta_no_header_amended [65, 66, 67] 7 (by decide)

/-- C5: when a header marker is met in the counting state right after a byte
that is not a line boundary, count_fasta_file returns none, discarding the
contribution of every preceding well-formed record. -/
theorem count_fasta_midline_negative (k : Nat)
    (pre : List Nat) (recs : List (List Nat × List Nat)) (hN p q : List Nat)
    (hpre : containsHeaderStart true pre = false)
    (hpreNl : lastIsNewline true pre = true)
    (hwf : wfRecs recs)
    (hhN : ∀ x ∈ hN, isNewlineByte x = false)
    (hp62 : ∀ x ∈ p, x ≠ 62)
    (hpNl : lastIsNewline true p = false) :
    count_fasta_file
      (pre ++ recordsStream recs (62 :: (hN ++ 10 :: (p ++ 62 :: q)))) k = none := by
  unfold count_fasta_file
  rw [recordsStream_cons_marker, seekHeader_append_marker pre true _ hpre hpreNl]
  rw [fastaLoop_records recs _ k 0 hwf]
  have hs2 : (hN ++ 10 :: (p ++ 62 :: q)) ≠ [] := by simp
  have hstep : countRecord (skipToNewline (hN ++ 10 :: (p ++ 62 :: q))) 0 true
      = none := by
    rw [skipToNewline_append hN 10 _ hhN rfl]
    rw [countRecord_marker_append p 0 true q hp62]
    simp [hpNl]
  exact fastaLoop_none k _ _ hs2 hstep

theorem count_fasta_midline_negative_witness :
    count_fasta_file ([] ++ recordsStream [([104], [65, 10])]
        (62 :: ([106] ++ 10 :: ([67] ++ 62 :: [68])))) 1 = none :=
  count_fasta_midline_negative 1 [] [([104], [65, 10])] [106] [67] [68]
    (by decide) (by decide) (by decide) (by decide) (by decide) (by decide)

/-- C9: when the stream ends while a header line is being skipped (a header
marker was found but the stream is exhausted before any line boundary),
count_fasta_file terminates gracefully with the successful sum of the
preceding records, the truncated header contributing nothing for positive k. -/
theorem count_fasta_truncated_header (k : Nat) (hk : 1 ≤ k)
    (pre : List Nat) (recs : List (List Nat × List Nat)) (hdr : List Nat)
    (hpre : containsHeaderStart true pre = false)
    (hpreNl : lastIsNewline true pre = true)
    (hwf : wfRecs recs)
    (hhdr : ∀ x ∈ hdr, isNewlineByte x = false) :
    count_fasta_file (pre ++ recordsStream recs (62 :: hdr)) k
      = some (contribSum recs k) := by
  unfold count_fasta_file
  rw [recordsStream_cons_marker, seekHeader_append_marker pre true _ hpre hpreNl]
  rw [fastaLoop_records recs _ k 0 hwf]
  rcases eq_or_ne hdr [] with h | h
  · rw [h, fastaLoop_nil, Nat.zero_add]
  · have hstep : countRecord (skipToNewline hdr) 0 true = some (0, []) := by
      rw [skipToNewline_of_no_newline hdr hhdr]
      rfl
    rw [fastaLoop_cons k hdr _ h 0 [] hstep, fastaLoop_nil]
    congr 1
    omega

theorem count_fasta_truncated_header_witness :
    count_fasta_file ([] ++ recordsStream [([104], [65, 65, 65, 10])]
        (62 :: [120, 121])) 3 = some (contribSum [([104], [65, 65, 65, 10])] 3) :=
  count_fasta_truncated_header 3 (by decide) [] [([104], [65, 65, 65, 10])]
    [120, 121] (by decide) (by decide) (by decide) (by decide)

/-- C10: the sequence-counter state machine terminates on every finite
stream: on a nonempty stream the header seek, the header skip and one full
counting-loop run each leave a strictly shorter remainder, and
count_fasta_file always returns either the negative verdict or a count. -/
theorem count_fasta_progress (s : List Nat) (k cnt : Nat) (hs : s ≠ []) :
    (seekHeader s true).length < s.length
    ∧ (skipToNewline s).length < s.length
    ∧ recordRestLength (skipToNewline s) cnt true < s.length
    ∧ (count_fasta_file s k = none
        ∨ count_fasta_file s k = some ((count_fasta_file s k).getD 0)) := by
  refine ⟨seekHeader_length_lt s true hs, skipToNewline_length_lt s hs, ?_, ?_⟩
  · unfold recordRestLength
    cases hcr : countRecord (skipToNewline s) cnt true with
    | none => simpa using List.length_pos.mpr hs
    | some p =>
      obtain ⟨c, rest⟩ := p
      have h1 := countRecord_rest_length_le _ _ _ _ _ hcr
      have h2 := skipToNewline_length_lt s hs
      simp only []
      omega
  · cases h : count_fasta_file s k with
    | none => exact Or.inl rfl
    | some n => exact Or.inr (by simp [h])

theorem count_fasta_progress_witness :
    (seekHeader [65] true).length < [65].length
    ∧ (skipToNewline [65]).length < [65].length
    ∧ recordRestLength (skipToNewline [65]) 0 true < [65].length
    ∧ (count_fasta_file [65] 1 = none
        ∨ count_fasta_file [65] 1 = some ((count_fasta_file [65] 1).getD 0)) :=
  count_fasta_progress [65] 1 0 (by decide)

/-- C3 counterexample: under a framing in which outerTar is an archive whose
single entry is innerTar, itself an archive holding the sequence file
innerFasta, the Format Sniffer applied to that entry yields 3 k-mers, yet the
archive attempt on outerTar returns none rather than the sum some 3: entries
are not recursively processed by the Format Sniffer. -/
theorem count_tar_nested_cex :
    count_tar_file nestedFraming outerTar 2 = none
    ∧ count_file nestedFraming true innerTar 2 = 3
    ∧ count_tar_file nestedFraming outerTar 2 ≠ some 3 := by
  refine ⟨by decide, by decide, by decide⟩

/-- C3 amended: each framed archive entry is processed by the sequence-format
counter count_fasta_file alone, a negative verdict contributing 0; nested
archives are not descended into, and the attempt returns the sum of those
per-entry counts when it is nonzero and none otherwise. -/
theorem count_tar_entries_amended
    (tarFraming : List Nat → Option (List (List Nat)))
    (s : List Nat) (es : List (List Nat)) (k : Nat)
    (h : tarFraming s = some es) :
    count_tar_file tarFraming s k =
      if tarEntrySum es k = 0 then none else some (tarEntrySum es k) := by
  simp [count_tar_file, h]

theorem count_tar_entries_amended_witness :
    count_tar_file nestedFraming innerTar 2 =
      if tarEntrySum [innerFasta] 2 = 0 then none else some (tarEntrySum [innerFasta] 2) :=
  count_tar_entries_amended nestedFraming innerTar [innerFasta] 2 (by decide)

/-- C4: the archive attempt returns none exactly when the stream cannot be
framed as an archive entry table or the sum of the k-mer counts of the parsed
entries is zero, and otherwise returns that positive sum. -/
theorem count_tar_verdict (tarFraming : List Nat → Option (List (List Nat)))
    (s : List Nat) (k : Nat) :
    (count_tar_file tarFraming s k = none ↔
      (tarFraming s = none ∨ tarEntrySum ((tarFraming s).getD []) k = 0))
    ∧ (tarFraming s ≠ none → tarEntrySum ((tarFraming s).getD []) k ≠ 0 →
        count_tar_file tarFraming s k = some (tarEntrySum ((tarFraming s).getD []) k)) := by
  cases h : tarFraming s with
  | none =>
    constructor
    · simp [count_tar_file, h]
    · intro h1
      simp at h1
  | some es =>
    constructor
    · by_cases hz : tarEntrySum es k = 0 <;> simp [count_tar_file, h, hz]
    · intro _ hz
      simp only [h, Option.getD_some] at hz ⊢
      simp [count_tar_file, h, hz]

theorem count_tar_verdict_witness :
    count_tar_file oneEntryFraming outerTar 2
      = some (tarEntrySum ((oneEntryFraming outerTar).getD []) 2)
    ∧ tarEntrySum ((oneEntryFraming outerTar).getD []) 2 = 3 :=
  ⟨(count_tar_verdict oneEntryFraming outerTar 2).2 (by decide) (by decide), by decide⟩

/-- C6 counterexample: with no archive framing and a failed seek, count_file
returns 0 at once, even though the sequence-format attempt on the stream
would return the count 3; the sequence-format interpretation is not attempted
at all when repositioning fails (main.rs lines 84-86). -/
theorem count_file_seek_fail_cex :
    count_file noFraming false plainFasta 2 = 0
    ∧ (count_fasta_file plainFasta 2).getD 0 = 3 := by
  refine ⟨by decide, by decide⟩

/-- C6 amended: whenever the archive attempt returns the negative verdict and
repositioning to offset zero fails, count_file returns 0 immediately without
attempting the sequence-format interpretation. -/
theorem count_file_seek_fail_amended
    (tarFraming : List Nat → Option (List (List Nat)))
    (s : List Nat) (k : Nat)
    (h : count_tar_file tarFraming s k = none) :
    count_file tarFraming false s k = 0 := by
  simp [count_file, h]

theorem count_file_seek_fail_amended_witness :
    count_file noFraming false plainFasta 5 = 0 :=
  count_file_seek_fail_amended noFraming plainFasta 5 (by decide)

/-- C7: when a directory enumeration yields an error after a prefix of
entries, count_directory stops there and returns the sum accumulated over the
prefix, a partial result, ignoring whatever entries would have followed. -/
theorem count_directory_partial_sum
    (tarFraming : List Nat → Option (List (List Nat))) (k : Nat)
    (pre : List FsNode) (rest : DirList) :
    count_directory tarFraming k (dirOfList pre (DirList.err rest)) =
      (pre.map (count_path tarFraming k)).sum := by
  induction pre with
  | nil => simp [dirOfList, count_directory]
  | cons n pre ih =>
    simp only [dirOfList, List.foldr_cons, count_directory, List.map_cons,
      List.sum_cons]
    rw [← ih]
    rfl

/-- C8: a directory holding one file with the scenario content and k = 4
yields the grand total 5 (the 8-character record contributes 5 and the
2-character record contributes 0), provided the archive framing declines the
file as it does in reality. -/
theorem scenario_total_five (tarFraming : List Nat → Option (List (List Nat)))
    (h : count_tar_file tarFraming scenarioFile 4 = none) :
    grandTotal tarFraming
      [FsNode.dir (DirList.cons (FsNode.file true scenarioFile) DirList.nil)] 4 = 5 := by
  have hf : count_fasta_file scenarioFile 4 = some 5 := by decide
  simp [grandTotal, count_path, count_directory, count_file, h, hf]

theorem scenario_total_five_witness :
    count_tar_file noFraming scenarioFile 4 = none
    ∧ grandTotal noFraming
        [FsNode.dir (DirList.cons (FsNode.file true scenarioFile) DirList.nil)] 4 = 5 :=
  ⟨by decide, scenario_total_five noFraming (by decide)⟩
